import Mathlib

/-!
# Verification of `extract_races.py`

A shallow embedding of `src/data/raw/elections/ingham-county/extract_races.py`
and proofs about it.

The script reads election-result CSV files with `csv.DictReader`, keeps the
rows whose `county` column equals `"Ingham"`, derives a race label per row
(`office`, or `office + " - District " + district` when `district` is a
non-empty string), deduplicates the labels in a Python `set`, and returns
`sorted(races)`.  A driver prints a report block per input file.

Modelling decisions:
* A parsed CSV file is a `List (List String)`: the list of records produced
  by the CSV reader, the first record being the header row.
* `csv.DictReader` semantics: each data record is zipped with the header;
  a key occurring several times in the header takes the value at its last
  index; a record shorter than the header yields the `restval` default
  `None` for the missing keys; records that parse to an empty field list
  (blank lines) are skipped; `row[k]` raises `KeyError` when the header
  does not declare `k` at all.  Python's `None`-or-string values are
  `Option String` (`none` = `None`).
* Raising is `Except PyErr`: `KeyError` from subscripting, and the
  `TypeError` that `sorted` raises when it has to compare `None` with a
  string.
* Python's `sorted` on a set of strings is sorting by lexicographic
  code-point order, embedded as `List.insertionSort (· ≤ ·)` over `String`.
-/

/-- Python exceptions that the script can raise while extracting. -/
inductive PyErr where
  | keyError : String → PyErr
  | typeError : PyErr
deriving DecidableEq, Repr

/-- Index of the *last* occurrence of key `k` in the header, mirroring
`dict(zip(header, row))` where a later duplicate column overrides an
earlier one.  `none` when the header does not declare `k`. -/
def lastIdx : List String → String → Option Nat
  | [], _ => none
  | c :: rest, k =>
    match lastIdx rest k with
    | some j => some (j + 1)
    | none => if c = k then some 0 else none

/-- `row[k]` on a `csv.DictReader` row: `KeyError` when the header lacks
`k`; otherwise the record's field at the (last) index of `k`, which is the
`restval` default `None` when the record is shorter than the header. -/
def rowGet (header fields : List String) (k : String) : Except PyErr (Option String) :=
  match lastIdx header k with
  | none => .error (.keyError k)
  | some i => .ok fields[i]?

/-- The value `row[k]` would have when the header declares `k` (pure view
of `rowGet`, `none` both for an undeclared key and for the `restval`). -/
def rowVal (header fields : List String) (k : String) : Option String :=
  match lastIdx header k with
  | none => none
  | some i => fields[i]?

/-- Python truthiness of a `None`-or-string value: `None` and `""` are
falsy, every other string is truthy. -/
def pyTruthy : Option String → Bool
  | none => false
  | some s => !(s == "")

/-- Python `str()` of a `None`-or-string value, as used by f-string
interpolation. -/
def pyStr : Option String → String
  | none => "None"
  | some s => s

/-- The race label derived from one matching row:
`f"{office} - District {district}"` when `district` is truthy, otherwise
the raw `office` value. -/
def raceLabel (office district : Option String) : Option String :=
  if pyTruthy district then
    some (pyStr office ++ " - District " ++ pyStr district)
  else
    office

/-- `races.add(x)`: the Python set is modelled as a duplicate-free list;
adding an element already present is a no-op. -/
def insertSet (s : List (Option String)) (x : Option String) : List (Option String) :=
  if x ∈ s then s else s ++ [x]

/-- One iteration of the `for row in reader` loop body: look up `county`,
and when it equals `"Ingham"` look up `office` and `district` and add the
derived label to the accumulated set.  A `KeyError` propagates. -/
def processRow (races : List (Option String)) (header fields : List String) :
    Except PyErr (List (Option String)) :=
  match rowGet header fields "county" with
  | .error e => .error e
  | .ok county =>
    if county = some "Ingham" then
      match rowGet header fields "office" with
      | .error e => .error e
      | .ok office =>
        match rowGet header fields "district" with
        | .error e => .error e
        | .ok district => .ok (insertSet races (raceLabel office district))
    else
      .ok races

/-- What one row contributes, independent of the accumulated set: an error,
nothing (county mismatch), or a label to add.  Characterises `processRow`
(see `processRow_eq`). -/
def rowStep (header fields : List String) : Except PyErr (Option (Option String)) :=
  match rowGet header fields "county" with
  | .error e => .error e
  | .ok county =>
    if county = some "Ingham" then
      match rowGet header fields "office" with
      | .error e => .error e
      | .ok office =>
        match rowGet header fields "district" with
        | .error e => .error e
        | .ok district => .ok (some (raceLabel office district))
    else
      .ok none

/-- The whole `for row in reader` loop over the (already blank-filtered)
data records, threading the accumulated set and stopping at the first
raised error. -/
def foldRows (header : List String) :
    List (Option String) → List (List String) → Except PyErr (List (Option String))
  | races, [] => .ok races
  | races, r :: rs =>
    match processRow races header r with
    | .error e => .error e
    | .ok races2 => foldRows header races2 rs

/-- Error-free pure version of the loop, used to reason about successful
runs: rows whose `rowStep` yields a label insert it, all others are
skipped. -/
def collectRows (header : List String) :
    List (Option String) → List (List String) → List (Option String)
  | races, [] => races
  | races, r :: rs =>
    match rowStep header r with
    | .ok (some l) => collectRows header (insertSet races l) rs
    | _ => collectRows header races rs

/-- Python `sorted(races)` on the accumulated set: when the set holds both
`None` and a string, comparing them raises `TypeError`; a set of `None`
alone is returned as-is; otherwise the strings are sorted ascending by
lexicographic code-point order (the pointwise order on the character
lists, which agrees with `String`'s `≤`, see `dataLe_iff`). -/
def sortLabels (races : List (Option String)) : Except PyErr (List (Option String)) :=
  if none ∈ races then
    if races.all (· == none) then .ok races else .error .typeError
  else
    .ok (((races.filterMap id).insertionSort (fun a b => a.data ≤ b.data)).map some)

/-- `extract_races`: the file is the list of CSV records; the first record
is the `DictReader` header (an empty file iterates no rows); blank records
are skipped exactly as `DictReader` does; the loop accumulates the set of
labels and the result is `sorted(races)`. -/
def extract_races (file : List (List String)) : Except PyErr (List (Option String)) :=
  match file with
  | [] => .ok []
  | header :: rest =>
    match foldRows header [] (rest.filter (fun r => !r.isEmpty)) with
    | .error e => .error e
    | .ok races => sortLabels races

/-- The separator `'=' * 60` printed by `main`. -/
def sep60 : String := String.mk (List.replicate 60 '=')

/-- The fixed year → filename table of the driver `main`. -/
def driverFiles : List (String × String) :=
  [("2024", "20241105__mi__general__precinct.csv"),
   ("2022", "20221108__mi__general__precinct.csv"),
   ("2020", "20201103__mi__general__precinct.csv")]

/-- Split a character stream at every occurrence of `sep` (the line
structure of printed output). -/
def splitChar (sep : Char) : List Char → List (List Char)
  | [] => [[]]
  | c :: cs =>
    if c = sep then
      [] :: splitChar sep cs
    else
      match splitChar sep cs with
      | [] => [[c]]
      | l :: ls => (c :: l) :: ls

/-- The lines that `print(s)` contributes to standard output (`print`
terminates its argument with a newline, so the lines of a report block are
the concatenation of `printLines` of each printed string). -/
def printLines (s : String) : List String := (splitChar '\n' s.data).map String.mk

/-- The title line `f"November {year} General Election - Races Available"`. -/
def titleLine (year : String) : String :=
  "November " ++ year ++ " General Election - Races Available"

/-- The lines printed by `main` for one input file whose extracted races
are `races`, in print order: `print(f"\n{'='*60}")`, the title, the
separator again, `print(f"  - {race}")` per race, and
`print(f"\nTotal races: {len(races)}")`. -/
def filePrints (year : String) (races : List (Option String)) : List String :=
  printLines ("\n" ++ sep60)
    ++ printLines (titleLine year)
    ++ printLines sep60
    ++ (races.map (fun race => printLines ("  - " ++ pyStr race))).flatten
    ++ printLines ("\nTotal races: " ++ toString races.length)

/-- The report block `main` prints for one file: the lines of `filePrints`
when extraction succeeds, and no completed block when it raises. -/
def reportOf (year : String) (file : List (List String)) : Option (List String) :=
  match extract_races file with
  | .ok races => some (filePrints year races)
  | .error _ => none

/-- Label comparison used to state sortedness of the output: both entries
are strings and the first is `≤` the second. -/
def labelLe (a b : Option String) : Prop :=
  ∃ x y, a = some x ∧ b = some y ∧ x ≤ y

/-! ## Basic facts about the embedding -/

theorem dataLe_iff (a b : String) : a.data ≤ b.data ↔ a ≤ b := by
  rw [String.le_iff_toList_le]
  exact Iff.rfl

instance : IsTotal String (fun a b : String => a.data ≤ b.data) :=
  ⟨fun a b => le_total a.data b.data⟩

instance : IsTrans String (fun a b : String => a.data ≤ b.data) :=
  ⟨fun _ _ _ h1 h2 => le_trans h1 h2⟩

instance : IsAntisymm String (fun a b : String => a.data ≤ b.data) :=
  ⟨fun _ _ h1 h2 => String.toList_inj.mp (le_antisymm h1 h2)⟩

theorem strDataAppend (a b : String) : (a ++ b).data = a.data ++ b.data := rfl

theorem lastIdx_eq_none (header : List String) (k : String) :
    lastIdx header k = none ↔ k ∉ header := by
  induction header with
  | nil => simp [lastIdx]
  | cons c rest ih =>
    rw [lastIdx]
    cases h : lastIdx rest k with
    | some j =>
      have hk : k ∈ rest := by
        by_contra hk
        rw [← ih] at hk
        simp [h] at hk
      simp [hk]
    | none =>
      have hk : k ∉ rest := ih.mp h
      by_cases hc : c = k
      · simp [hc]
      · have hkc : ¬k = c := fun h => hc h.symm
        simp [hc, hk, hkc]

theorem lastIdx_lt (header : List String) (k : String) (i : Nat)
    (h : lastIdx header k = some i) : i < header.length := by
  induction header generalizing i with
  | nil => simp [lastIdx] at h
  | cons c rest ih =>
    rw [lastIdx] at h
    cases h2 : lastIdx rest k with
    | some j =>
      rw [h2] at h
      cases h
      exact Nat.succ_lt_succ (ih j h2)
    | none =>
      rw [h2] at h
      by_cases hc : c = k
      · rw [if_pos hc] at h
        cases h
        exact Nat.succ_pos _
      · rw [if_neg hc] at h
        cases h

theorem rowGet_of_mem (header fields : List String) (k : String) (hk : k ∈ header) :
    rowGet header fields k = .ok (rowVal header fields k) := by
  cases hL : lastIdx header k with
  | none => exact absurd ((lastIdx_eq_none header k).mp hL) (by simp [hk])
  | some i => simp [rowGet, rowVal, hL]

theorem rowGet_of_not_mem (header fields : List String) (k : String) (hk : k ∉ header) :
    rowGet header fields k = .error (.keyError k) := by
  simp [rowGet, (lastIdx_eq_none header k).mpr hk]

theorem rowVal_isSome (header fields : List String) (k : String) (hk : k ∈ header)
    (hlen : header.length ≤ fields.length) :
    ∃ v, rowVal header fields k = some v := by
  cases hL : lastIdx header k with
  | none => exact absurd ((lastIdx_eq_none header k).mp hL) (by simp [hk])
  | some i =>
    have hi : i < fields.length := lt_of_lt_of_le (lastIdx_lt header k i hL) hlen
    exact ⟨fields[i], by simp [rowVal, hL, List.getElem?_eq_getElem hi]⟩

theorem rowVal_some_ne_nil (header fields : List String) (k : String) (v : String)
    (h : rowVal header fields k = some v) : fields ≠ [] := by
  intro hnil
  subst hnil
  unfold rowVal at h
  cases hL : lastIdx header k <;> simp [hL] at h

theorem raceLabel_isSome (o : String) (district : Option String) :
    ∃ s, raceLabel (some o) district = some s := by
  unfold raceLabel
  by_cases h : pyTruthy district
  · exact ⟨_, by rw [if_pos h]⟩
  · exact ⟨o, by rw [if_neg h]⟩

theorem mem_insertSet (s : List (Option String)) (x y : Option String) :
    y ∈ insertSet s x ↔ y ∈ s ∨ y = x := by
  unfold insertSet
  by_cases h : x ∈ s
  · rw [if_pos h]
    constructor
    · exact Or.inl
    · rintro (hy | rfl)
      · exact hy
      · exact h
  · rw [if_neg h]
    simp

theorem nodup_insertSet (s : List (Option String)) (x : Option String) (h : s.Nodup) :
    (insertSet s x).Nodup := by
  unfold insertSet
  by_cases hx : x ∈ s
  · rwa [if_pos hx]
  · rw [if_neg hx]
    simp [List.nodup_append, h, hx]

/-! ## The loop body -/

theorem processRow_eq (races : List (Option String)) (header fields : List String) :
    processRow races header fields =
      match rowStep header fields with
      | .error e => .error e
      | .ok none => .ok races
      | .ok (some l) => .ok (insertSet races l) := by
  cases hc : rowGet header fields "county" with
  | error e => simp [processRow, rowStep, hc]
  | ok county =>
    by_cases hm : county = some "Ingham"
    · cases ho : rowGet header fields "office" with
      | error e2 => simp [processRow, rowStep, hc, ho, hm]
      | ok office =>
        cases hd : rowGet header fields "district" with
        | error e3 => simp [processRow, rowStep, hc, ho, hd, hm]
        | ok district => simp [processRow, rowStep, hc, ho, hd, hm]
    · simp [processRow, rowStep, hc, hm]

theorem rowStep_no_county (header fields : List String) (hc : "county" ∉ header) :
    rowStep header fields = .error (.keyError "county") := by
  unfold rowStep
  rw [rowGet_of_not_mem header fields _ hc]

theorem rowStep_skip (header fields : List String) (hc : "county" ∈ header)
    (hm : rowVal header fields "county" ≠ some "Ingham") :
    rowStep header fields = .ok none := by
  unfold rowStep
  rw [rowGet_of_mem header fields _ hc]
  simp [hm]

theorem rowStep_no_office (header fields : List String) (hc : "county" ∈ header)
    (ho : "office" ∉ header)
    (hm : rowVal header fields "county" = some "Ingham") :
    rowStep header fields = .error (.keyError "office") := by
  unfold rowStep
  rw [rowGet_of_mem header fields _ hc]
  simp [hm, rowGet_of_not_mem header fields _ ho]

theorem rowStep_no_district (header fields : List String) (hc : "county" ∈ header)
    (ho : "office" ∈ header) (hd : "district" ∉ header)
    (hm : rowVal header fields "county" = some "Ingham") :
    rowStep header fields = .error (.keyError "district") := by
  unfold rowStep
  rw [rowGet_of_mem header fields _ hc]
  simp [hm, rowGet_of_mem header fields _ ho, rowGet_of_not_mem header fields _ hd]

theorem rowStep_match (header fields : List String) (hc : "county" ∈ header)
    (ho : "office" ∈ header) (hd : "district" ∈ header)
    (hm : rowVal header fields "county" = some "Ingham") :
    rowStep header fields =
      .ok (some (raceLabel (rowVal header fields "office") (rowVal header fields "district"))) := by
  unfold rowStep
  rw [rowGet_of_mem header fields _ hc]
  simp [hm, rowGet_of_mem header fields _ ho, rowGet_of_mem header fields _ hd]

theorem rowStep_ok_some_iff (header fields : List String) (l : Option String)
    (hc : "county" ∈ header) (ho : "office" ∈ header) (hd : "district" ∈ header) :
    rowStep header fields = .ok (some l) ↔
      rowVal header fields "county" = some "Ingham" ∧
        raceLabel (rowVal header fields "office") (rowVal header fields "district") = l := by
  by_cases hm : rowVal header fields "county" = some "Ingham"
  · rw [rowStep_match header fields hc ho hd hm]
    simp [hm]
  · rw [rowStep_skip header fields hc hm]
    simp [hm]

/-! ## The loop -/

theorem foldRows_cons_error (header : List String) (races : List (Option String))
    (r : List String) (rs : List (List String)) (e : PyErr)
    (hs : rowStep header r = .error e) :
    foldRows header races (r :: rs) = .error e := by
  rw [foldRows, processRow_eq, hs]

theorem foldRows_cons_none (header : List String) (races : List (Option String))
    (r : List String) (rs : List (List String))
    (hs : rowStep header r = .ok none) :
    foldRows header races (r :: rs) = foldRows header races rs := by
  rw [foldRows, processRow_eq, hs]

theorem foldRows_cons_some (header : List String) (races : List (Option String))
    (r : List String) (rs : List (List String)) (l : Option String)
    (hs : rowStep header r = .ok (some l)) :
    foldRows header races (r :: rs) = foldRows header (insertSet races l) rs := by
  rw [foldRows, processRow_eq, hs]

theorem collectRows_cons_error (header : List String) (races : List (Option String))
    (r : List String) (rs : List (List String)) (e : PyErr)
    (hs : rowStep header r = .error e) :
    collectRows header races (r :: rs) = collectRows header races rs := by
  rw [collectRows, hs]

theorem collectRows_cons_none (header : List String) (races : List (Option String))
    (r : List String) (rs : List (List String))
    (hs : rowStep header r = .ok none) :
    collectRows header races (r :: rs) = collectRows header races rs := by
  rw [collectRows, hs]

theorem collectRows_cons_some (header : List String) (races : List (Option String))
    (r : List String) (rs : List (List String)) (l : Option String)
    (hs : rowStep header r = .ok (some l)) :
    collectRows header races (r :: rs) = collectRows header (insertSet races l) rs := by
  rw [collectRows, hs]

theorem foldRows_ok_steps (header : List String) :
    ∀ (rows : List (List String)) (races out : List (Option String)),
      foldRows header races rows = .ok out →
      ∀ r ∈ rows, ∃ u, rowStep header r = .ok u := by
  intro rows
  induction rows with
  | nil => intro races out _ r hr; cases hr
  | cons r rs ih =>
    intro races out h r' hr'
    cases hs : rowStep header r with
    | error e =>
      rw [foldRows_cons_error header races r rs e hs] at h
      cases h
    | ok u =>
      have hr'' := List.mem_cons.mp hr'
      cases u with
      | none =>
        rw [foldRows_cons_none header races r rs hs] at h
        rcases hr'' with rfl | hmem
        · exact ⟨none, hs⟩
        · exact ih races out h r' hmem
      | some l =>
        rw [foldRows_cons_some header races r rs l hs] at h
        rcases hr'' with rfl | hmem
        · exact ⟨some l, hs⟩
        · exact ih (insertSet races l) out h r' hmem

theorem foldRows_eq_collect (header : List String) :
    ∀ (rows : List (List String)) (races : List (Option String)),
      (∀ r ∈ rows, ∃ u, rowStep header r = .ok u) →
      foldRows header races rows = .ok (collectRows header races rows) := by
  intro rows
  induction rows with
  | nil => intro races _; rfl
  | cons r rs ih =>
    intro races hall
    obtain ⟨u, hu⟩ := hall r (List.mem_cons_self r rs)
    have hall' : ∀ r' ∈ rs, ∃ u, rowStep header r' = .ok u :=
      fun r' hr' => hall r' (List.mem_cons_of_mem r hr')
    cases u with
    | none =>
      rw [foldRows_cons_none header races r rs hu,
        collectRows_cons_none header races r rs hu]
      exact ih races hall'
    | some l =>
      rw [foldRows_cons_some header races r rs l hu,
        collectRows_cons_some header races r rs l hu]
      exact ih (insertSet races l) hall'

theorem mem_collectRows (header : List String) :
    ∀ (rows : List (List String)) (races : List (Option String)) (x : Option String),
      x ∈ collectRows header races rows ↔
        x ∈ races ∨ ∃ r ∈ rows, rowStep header r = .ok (some x) := by
  intro rows
  induction rows with
  | nil => simp [collectRows]
  | cons r rs ih =>
    intro races x
    cases hs : rowStep header r with
    | error e =>
      rw [collectRows_cons_error header races r rs e hs, ih]
      simp [hs]
    | ok u =>
      cases u with
      | none =>
        rw [collectRows_cons_none header races r rs hs, ih]
        simp [hs]
      | some l =>
        rw [collectRows_cons_some header races r rs l hs, ih,
          mem_insertSet races l x]
        simp only [List.mem_cons, hs]
        constructor
        · rintro (⟨hx | rfl⟩ | ⟨r', hr', hstep⟩)
          · exact Or.inl hx
          · exact Or.inr ⟨r, Or.inl rfl, hs⟩
          · exact Or.inr ⟨r', Or.inr hr', hstep⟩
        · rintro (hx | ⟨r', hr' | hr', hstep⟩)
          · exact Or.inl (Or.inl hx)
          · subst hr'
            rw [hs] at hstep
            cases hstep
            exact Or.inl (Or.inr rfl)
          · exact Or.inr ⟨r', hr', hstep⟩

theorem nodup_collectRows (header : List String) :
    ∀ (rows : List (List String)) (races : List (Option String)),
      races.Nodup → (collectRows header races rows).Nodup := by
  intro rows
  induction rows with
  | nil => intro races h; simpa [collectRows] using h
  | cons r rs ih =>
    intro races h
    cases hs : rowStep header r with
    | error e => rw [collectRows_cons_error header races r rs e hs]; exact ih races h
    | ok u =>
      cases u with
      | none => rw [collectRows_cons_none header races r rs hs]; exact ih races h
      | some l =>
        rw [collectRows_cons_some header races r rs l hs]
        exact ih (insertSet races l) (nodup_insertSet races l h)

theorem collectRows_all_skip (header : List String) :
    ∀ (rows : List (List String)) (races : List (Option String)),
      (∀ r ∈ rows, rowStep header r = .ok none) →
      collectRows header races rows = races := by
  intro rows
  induction rows with
  | nil => intro races _; rfl
  | cons r rs ih =>
    intro races hall
    rw [collectRows_cons_none header races r rs (hall r (List.mem_cons_self r rs))]
    exact ih races (fun r' hr' => hall r' (List.mem_cons_of_mem r hr'))

theorem foldRows_first_error (header : List String) (e : PyErr) :
    ∀ (rows : List (List String)) (races : List (Option String)),
      (∀ r ∈ rows, rowStep header r = .error e ∨ rowStep header r = .ok none) →
      (∃ r ∈ rows, rowStep header r = .error e) →
      foldRows header races rows = .error e := by
  intro rows
  induction rows with
  | nil =>
    intro races _ hex
    simp at hex
  | cons r rs ih =>
    intro races hall hex
    rcases hall r (List.mem_cons_self r rs) with hsr | hsr
    · exact foldRows_cons_error header races r rs e hsr
    · rw [foldRows_cons_none header races r rs hsr]
      apply ih races (fun r' hr' => hall r' (List.mem_cons_of_mem r hr'))
      rcases hex with ⟨r', hr', he'⟩
      rcases List.mem_cons.mp hr' with rfl | hmem
      · rw [hsr] at he'
        cases he'
      · exact ⟨r', hmem, he'⟩

/-! ## Sorting -/

theorem eq_single_none (races : List (Option String)) (hn : none ∈ races)
    (ha : races.all (· == none) = true) (hnd : races.Nodup) : races = [none] := by
  cases races with
  | nil => cases hn
  | cons a t =>
    have ha0 : a = none := by
      have := List.all_eq_true.mp ha a (List.mem_cons_self a t)
      simpa using this
    cases t with
    | nil => rw [ha0]
    | cons b t2 =>
      have hb : b = none := by
        have := List.all_eq_true.mp ha b (by simp)
        simpa using this
      subst ha0
      subst hb
      simp at hnd

theorem sortLabels_of_not_none (races : List (Option String)) (h : none ∉ races) :
    sortLabels races =
      .ok (((races.filterMap id).insertionSort (fun a b => a.data ≤ b.data)).map some) := by
  simp [sortLabels, h]

theorem sortLabels_ok_mem (races out : List (Option String))
    (h : sortLabels races = .ok out) (x : Option String) :
    x ∈ out ↔ x ∈ races := by
  unfold sortLabels at h
  by_cases hn : none ∈ races
  · rw [if_pos hn] at h
    by_cases ha : races.all (· == none)
    · rw [if_pos ha] at h
      cases h
      exact Iff.rfl
    · rw [if_neg ha] at h
      cases h
  · rw [if_neg hn] at h
    cases h
    simp only [List.mem_map, List.mem_insertionSort, List.mem_filterMap, id]
    constructor
    · rintro ⟨a, ⟨b, hb, hba⟩, rfl⟩
      subst hba
      exact hb
    · intro hx
      cases x with
      | none => exact absurd hx hn
      | some s => exact ⟨s, ⟨some s, hx, rfl⟩, rfl⟩

theorem sortLabels_ok_nodup (races out : List (Option String)) (hnd : races.Nodup)
    (h : sortLabels races = .ok out) : out.Nodup := by
  unfold sortLabels at h
  by_cases hn : none ∈ races
  · rw [if_pos hn] at h
    by_cases ha : races.all (· == none)
    · rw [if_pos ha] at h
      cases h
      exact hnd
    · rw [if_neg ha] at h
      cases h
  · rw [if_neg hn] at h
    cases h
    have h1 : (races.filterMap id).Nodup := by
      apply List.Nodup.filterMap _ hnd
      intro a a' b hb hb'
      simp only [id, Option.mem_def] at hb hb'
      rw [hb, hb']
    have h2 : ((races.filterMap id).insertionSort (fun a b => a.data ≤ b.data)).Nodup :=
      (List.perm_insertionSort (fun a b => a.data ≤ b.data) (races.filterMap id)).symm.nodup h1
    exact h2.map (Option.some_injective String)

theorem sortLabels_ok_chain (races out : List (Option String)) (hnd : races.Nodup)
    (h : sortLabels races = .ok out) : out.Chain' labelLe := by
  unfold sortLabels at h
  by_cases hn : none ∈ races
  · rw [if_pos hn] at h
    by_cases ha : races.all (· == none)
    · rw [if_pos ha] at h
      cases h
      rw [eq_single_none races hn ha hnd]
      simp
    · rw [if_neg ha] at h
      cases h
  · rw [if_neg hn] at h
    cases h
    have hs : ((races.filterMap id).insertionSort (fun a b => a.data ≤ b.data)).Chain'
        (fun a b : String => a.data ≤ b.data) :=
      (List.sorted_insertionSort (fun a b : String => a.data ≤ b.data)
        (races.filterMap id)).chain'
    rw [List.chain'_map]
    exact hs.imp (fun a b hab => ⟨a, b, rfl, rfl, (dataLe_iff a b).mp hab⟩)

theorem sortLabels_perm (races races' : List (Option String)) (hnd : races.Nodup)
    (hp : races.Perm races') : sortLabels races' = sortLabels races := by
  have hmem : ∀ x : Option String, x ∈ races' ↔ x ∈ races := fun x => hp.mem_iff.symm
  unfold sortLabels
  by_cases hn : none ∈ races
  · rw [if_pos hn, if_pos ((hmem none).mpr hn)]
    by_cases ha : races.all (· == none)
    · have ha' : races'.all (· == none) = true := by
        rw [List.all_eq_true] at ha ⊢
        exact fun x hx => ha x ((hmem x).mp hx)
      rw [if_pos ha, if_pos ha']
      rw [eq_single_none races hn ha hnd,
        eq_single_none races' ((hmem none).mpr hn) ha' (hp.nodup hnd)]
    · have ha' : ¬races'.all (· == none) = true := by
        intro ha'
        apply ha
        rw [List.all_eq_true] at ha' ⊢
        exact fun x hx => ha' x ((hmem x).mpr hx)
      rw [if_neg ha, if_neg ha']
  · rw [if_neg hn, if_neg (fun h => hn ((hmem none).mp h))]
    have hpf : (races'.filterMap id).Perm (races.filterMap id) := (hp.symm).filterMap id
    have heq : (races'.filterMap id).insertionSort (fun a b => a.data ≤ b.data)
        = (races.filterMap id).insertionSort (fun a b => a.data ≤ b.data) :=
      List.eq_of_perm_of_sorted
        ((List.perm_insertionSort _ _).trans
          (hpf.trans (List.perm_insertionSort _ _).symm))
        (List.sorted_insertionSort _ _)
        (List.sorted_insertionSort _ _)
    rw [heq]

/-! ## Top-level structure -/

theorem extract_ok_parts (header : List String) (rest : List (List String))
    (out : List (Option String)) (h : extract_races (header :: rest) = .ok out) :
    ∃ races, foldRows header [] (rest.filter (fun r => !r.isEmpty)) = .ok races ∧
      sortLabels races = .ok out := by
  rw [extract_races] at h
  cases hf : foldRows header [] (rest.filter (fun r => !r.isEmpty)) with
  | error e =>
    rw [hf] at h
    cases h
  | ok races =>
    rw [hf] at h
    exact ⟨races, rfl, h⟩

theorem extract_eq_of_fold (header : List String) (rest : List (List String))
    (races : List (Option String))
    (hf : foldRows header [] (rest.filter (fun r => !r.isEmpty)) = .ok races) :
    extract_races (header :: rest) = sortLabels races := by
  rw [extract_races, hf]

/-! ## Printed output -/

theorem splitChar_of_not_mem (sep : Char) (cs : List Char) (h : sep ∉ cs) :
    splitChar sep cs = [cs] := by
  induction cs with
  | nil => rfl
  | cons c cs ih =>
    rw [splitChar, if_neg (fun hc : c = sep => h (hc ▸ List.mem_cons_self c cs)),
      ih (fun hm => h (List.mem_cons_of_mem c hm))]

theorem printLines_of_no_newline (s : String) (h : '\n' ∉ s.data) :
    printLines s = [s] := by
  unfold printLines
  rw [splitChar_of_not_mem _ _ h]
  rfl

theorem printLines_head_newline (s t : String) (hst : s.data = '\n' :: t.data)
    (h : '\n' ∉ t.data) : printLines s = ["", t] := by
  unfold printLines
  rw [hst, splitChar, if_pos rfl, splitChar_of_not_mem _ _ h]
  rfl

theorem sep60_no_newline : '\n' ∉ sep60.data := by
  intro hmem
  rw [show sep60.data = List.replicate 60 '=' from rfl, List.mem_replicate] at hmem
  cases hmem.2

theorem flatten_race_lines (races : List (Option String))
    (h : ∀ r ∈ races, '\n' ∉ (pyStr r).data) :
    (races.map (fun race => printLines ("  - " ++ pyStr race))).flatten
      = races.map (fun race => "  - " ++ pyStr race) := by
  induction races with
  | nil => rfl
  | cons r rs ih =>
    simp only [List.map_cons, List.flatten_cons]
    rw [printLines_of_no_newline ("  - " ++ pyStr r)
        (by
          rw [strDataAppend]
          intro hmem
          rcases List.mem_append.mp hmem with hm | hm
          · simp at hm
          · exact h r (List.mem_cons_self r rs) hm),
      ih (fun x hx => h x (List.mem_cons_of_mem r hx))]
    rfl

theorem digitChar_ne_newline (n : Nat) : Nat.digitChar n ≠ '\n' := by
  by_cases h : n < 16
  · interval_cases n <;> decide
  · have hne : ∀ k : Nat, k ≤ 15 → ¬n = k := fun k hk he => by omega
    unfold Nat.digitChar
    rw [if_neg (hne 0 (by norm_num)), if_neg (hne 1 (by norm_num)),
      if_neg (hne 2 (by norm_num)), if_neg (hne 3 (by norm_num)),
      if_neg (hne 4 (by norm_num)), if_neg (hne 5 (by norm_num)),
      if_neg (hne 6 (by norm_num)), if_neg (hne 7 (by norm_num)),
      if_neg (hne 8 (by norm_num)), if_neg (hne 9 (by norm_num)),
      if_neg (hne 10 (by norm_num)), if_neg (hne 11 (by norm_num)),
      if_neg (hne 12 (by norm_num)), if_neg (hne 13 (by norm_num)),
      if_neg (hne 14 (by norm_num)), if_neg (hne 15 (by norm_num))]
    decide

theorem toDigitsCore_no_newline :
    ∀ (fuel n : Nat) (acc : List Char), '\n' ∉ acc →
      '\n' ∉ Nat.toDigitsCore 10 fuel n acc := by
  intro fuel
  induction fuel with
  | zero =>
    intro n acc h
    simpa [Nat.toDigitsCore] using h
  | succ f ih =>
    intro n acc h
    simp only [Nat.toDigitsCore]
    by_cases h0 : n / 10 = 0
    · rw [if_pos h0]
      intro hmem
      rcases List.mem_cons.mp hmem with hm | hm
      · exact digitChar_ne_newline (n % 10) hm.symm
      · exact h hm
    · rw [if_neg h0]
      apply ih
      intro hmem
      rcases List.mem_cons.mp hmem with hm | hm
      · exact digitChar_ne_newline (n % 10) hm.symm
      · exact h hm

theorem toString_nat_no_newline (n : Nat) : '\n' ∉ (toString n).data := by
  show '\n' ∉ Nat.toDigitsCore 10 (n + 1) n []
  exact toDigitsCore_no_newline (n + 1) n [] (by simp)

theorem totalLine_no_newline (n : Nat) :
    '\n' ∉ ("Total races: " ++ toString n).data := by
  rw [strDataAppend]
  intro hmem
  rcases List.mem_append.mp hmem with hm | hm
  · simp at hm
  · exact toString_nat_no_newline n hm

theorem totalLine_data (n : Nat) :
    ("\nTotal races: " ++ toString n).data = '\n' :: ("Total races: " ++ toString n).data := by
  rw [strDataAppend, strDataAppend,
    show "\nTotal races: ".data = '\n' :: "Total races: ".data from rfl]
  rfl

theorem extract_eq_of_fold_error (header : List String) (rest : List (List String))
    (e : PyErr)
    (hf : foldRows header [] (rest.filter (fun r => !r.isEmpty)) = .error e) :
    extract_races (header :: rest) = .error e := by
  rw [extract_races, hf]

theorem extract_no_match_core (header : List String) (rows : List (List String))
    (hc : "county" ∈ header)
    (hni : ∀ r ∈ rows, rowVal header r "county" ≠ some "Ingham") :
    extract_races (header :: rows) = .ok [] := by
  have hall : ∀ r ∈ rows.filter (fun r => !r.isEmpty), rowStep header r = .ok none :=
    fun r hr => rowStep_skip header r hc (hni r (List.mem_of_mem_filter hr))
  have hf : foldRows header [] (rows.filter (fun r => !r.isEmpty)) = .ok [] := by
    rw [foldRows_eq_collect header (rows.filter (fun r => !r.isEmpty)) []
        (fun r hr => ⟨none, hall r hr⟩),
      collectRows_all_skip header (rows.filter (fun r => !r.isEmpty)) [] hall]
  rw [extract_eq_of_fold header rows [] hf]
  rfl

/-! ## The claims -/

/-- Claim C7: on the three-row scenario table (two Ingham rows — `President`
with empty district and `State House` with district `67` — and one Wayne
row), `extract_races` returns exactly `["President",
"State House - District 67"]`: the Wayne row is excluded and the result is
sorted. -/
theorem extract_races_scenario :
    extract_races
      [["county", "office", "district"],
       ["Ingham", "President", ""],
       ["Ingham", "State House", "67"],
       ["Wayne", "President", ""]] =
      .ok [some "President", some "State House - District 67"] := rfl

/-- Claim C10: a completely empty input file (no header row at all) makes
the row iterator yield nothing, so `extract_races` returns the empty
sequence without raising. -/
theorem extract_races_empty_file : extract_races [] = .ok [] := rfl

/-- Claim C2: for a consumed row whose `county` value is `"Ingham"` and
whose `office` and `district` lookups yield the strings `o` and `d`, the
loop body adds exactly the label `o` when `d` is the empty string, and
`o ++ " - District " ++ d` when `d` is non-empty. -/
theorem processRow_label_formula (races : List (Option String))
    (header fields : List String) (o d : String)
    (hc : rowGet header fields "county" = .ok (some "Ingham"))
    (ho : rowGet header fields "office" = .ok (some o))
    (hd : rowGet header fields "district" = .ok (some d)) :
    processRow races header fields =
      .ok (insertSet races (some (if d = "" then o else o ++ " - District " ++ d))) := by
  have hs : rowStep header fields = .ok (some (raceLabel (some o) (some d))) := by
    simp [rowStep, hc, ho, hd]
  rw [processRow_eq, hs]
  by_cases h0 : d = ""
  · simp [raceLabel, pyTruthy, pyStr, h0]
  · simp [raceLabel, pyTruthy, pyStr, h0]

theorem processRow_label_formula_witness :
    processRow [] ["county", "office", "district"] ["Ingham", "State House", "67"]
      = .ok (insertSet [] (some (if "67" = "" then "State House"
          else "State House" ++ " - District " ++ "67"))) :=
  processRow_label_formula [] ["county", "office", "district"]
    ["Ingham", "State House", "67"] "State House" "67" rfl rfl rfl

/-- Claim C5: on a well-formed table (header declaring `county`) none of
whose data rows has county `"Ingham"`, `extract_races` returns the empty
sequence without raising, and the printed report block for that file shows
the line `Total races: 0`. -/
theorem no_matching_rows_empty_output (header : List String) (rows : List (List String))
    (year : String) (hc : "county" ∈ header)
    (hni : ∀ r ∈ rows, rowVal header r "county" ≠ some "Ingham") :
    extract_races (header :: rows) = .ok [] ∧
      ∃ ls, reportOf year (header :: rows) = some ls ∧ "Total races: 0" ∈ ls := by
  have hex := extract_no_match_core header rows hc hni
  refine ⟨hex, filePrints year [], ?_, ?_⟩
  · unfold reportOf
    rw [hex]
  · unfold filePrints
    apply List.mem_append_right
    rw [show printLines ("\nTotal races: " ++ toString (List.length ([] : List (Option String))))
        = ["", "Total races: 0"] from rfl]
    simp

theorem no_matching_rows_empty_output_witness :
    extract_races [["county", "office", "district"], ["Wayne", "President", ""]] = .ok [] ∧
      ∃ ls, reportOf "2024" [["county", "office", "district"], ["Wayne", "President", ""]]
          = some ls ∧ "Total races: 0" ∈ ls :=
  no_matching_rows_empty_output ["county", "office", "district"]
    [["Wayne", "President", ""]] "2024" (by decide) (by decide)

/-- Claim C9 (implicit): `office` and `district` are only read for rows
whose county is `"Ingham"`, so a table whose header declares `county` but
lacks `office` and/or `district` still extracts successfully (yielding the
empty sequence) as long as no data row's county equals `"Ingham"`. -/
theorem missing_columns_unaccessed_ok (header : List String) (rows : List (List String))
    (hc : "county" ∈ header) (hmiss : "office" ∉ header ∨ "district" ∉ header)
    (hni : ∀ r ∈ rows, rowVal header r "county" ≠ some "Ingham") :
    extract_races (header :: rows) = .ok [] :=
  extract_no_match_core header rows hc hni

theorem missing_columns_unaccessed_ok_witness :
    extract_races [["county"], ["Wayne"]] = .ok [] :=
  missing_columns_unaccessed_ok ["county"] [["Wayne"]]
    (by decide) (Or.inl (by decide)) (by decide)

/-- Claim C4 counterexample: a consumed data row that lacks a field the
header declared does **not** make extraction fail.  The header declares
`district`, the row `["Ingham", "President"]` is too short so its
`district` reads as the `restval` `None`, and `extract_races` succeeds
returning `["President"]` instead of raising a missing-column error. -/
theorem short_row_no_error :
    rowGet ["county", "office", "district"] ["Ingham", "President"] "district" = .ok none
    ∧ extract_races [["county", "office", "district"], ["Ingham", "President"]]
        = .ok [some "President"] :=
  ⟨rfl, rfl⟩

/-- Claim C4 (amended): extraction fails with a missing-column `KeyError`
exactly when a required field is accessed but not declared in the header —
`county` for any consumed data row, and `office` (then `district`) for a
consumed row whose county is `"Ingham"`.  A consumed data row that is
merely shorter than the header does not raise: its missing declared fields
read as `None`. -/
theorem missing_header_column_raises (header : List String) (rows : List (List String)) :
    (("county" ∉ header ∧ rows.filter (fun r => !r.isEmpty) ≠ []) →
      extract_races (header :: rows) = .error (.keyError "county")) ∧
    (("county" ∈ header ∧ "office" ∉ header ∧
        ∃ r ∈ rows, rowVal header r "county" = some "Ingham") →
      extract_races (header :: rows) = .error (.keyError "office")) ∧
    (("county" ∈ header ∧ "office" ∈ header ∧ "district" ∉ header ∧
        ∃ r ∈ rows, rowVal header r "county" = some "Ingham") →
      extract_races (header :: rows) = .error (.keyError "district")) := by
  refine ⟨?_, ?_, ?_⟩
  · rintro ⟨hc, hne⟩
    apply extract_eq_of_fold_error
    apply foldRows_first_error
    · intro r _
      exact Or.inl (rowStep_no_county header r hc)
    · obtain ⟨r, hr⟩ := List.exists_mem_of_ne_nil _ hne
      exact ⟨r, hr, rowStep_no_county header r hc⟩
  · rintro ⟨hc, ho, r0, hr0, hm0⟩
    apply extract_eq_of_fold_error
    apply foldRows_first_error
    · intro r _
      by_cases hm : rowVal header r "county" = some "Ingham"
      · exact Or.inl (rowStep_no_office header r hc ho hm)
      · exact Or.inr (rowStep_skip header r hc hm)
    · refine ⟨r0, ?_, rowStep_no_office header r0 hc ho hm0⟩
      rw [List.mem_filter]
      exact ⟨hr0, by simp [rowVal_some_ne_nil header r0 "county" _ hm0]⟩
  · rintro ⟨hc, ho, hd, r0, hr0, hm0⟩
    apply extract_eq_of_fold_error
    apply foldRows_first_error
    · intro r _
      by_cases hm : rowVal header r "county" = some "Ingham"
      · exact Or.inl (rowStep_no_district header r hc ho hd hm)
      · exact Or.inr (rowStep_skip header r hc hm)
    · refine ⟨r0, ?_, rowStep_no_district header r0 hc ho hd hm0⟩
      rw [List.mem_filter]
      exact ⟨hr0, by simp [rowVal_some_ne_nil header r0 "county" _ hm0]⟩

theorem missing_header_column_raises_witness :
    extract_races [["x"], ["a"]] = .error (.keyError "county") :=
  (missing_header_column_raises ["x"] [["a"]]).1 ⟨by decide, by decide⟩

/-- Claim C1: for a table whose header declares `county`, `office` and
`district` and whose data rows each supply a value for every declared
column, `extract_races` succeeds and its output holds exactly the labels
derived from the rows whose `county` equals `"Ingham"`: every such row's
label is in the output and every output label comes from such a row. -/
theorem extract_races_exact_label_set (header : List String) (rows : List (List String))
    (hc : "county" ∈ header) (ho : "office" ∈ header) (hd : "district" ∈ header)
    (hlen : ∀ r ∈ rows, header.length ≤ r.length) :
    ∃ out, extract_races (header :: rows) = .ok out ∧
      ∀ l : Option String, l ∈ out ↔
        ∃ r ∈ rows, rowVal header r "county" = some "Ingham" ∧
          raceLabel (rowVal header r "office") (rowVal header r "district") = l := by
  have hfil : rows.filter (fun r => !r.isEmpty) = rows := by
    rw [List.filter_eq_self]
    intro r hr
    have h1 : 0 < header.length := List.length_pos.mpr (List.ne_nil_of_mem hc)
    have h2 : r ≠ [] := by
      intro hnil
      subst hnil
      have h3 := hlen [] hr
      rw [List.length_nil, Nat.le_zero, List.length_eq_zero] at h3
      subst h3
      cases hc
    simp [h2]
  have hsteps : ∀ r ∈ rows, ∃ u, rowStep header r = .ok u := by
    intro r hr
    by_cases hm : rowVal header r "county" = some "Ingham"
    · exact ⟨_, rowStep_match header r hc ho hd hm⟩
    · exact ⟨none, rowStep_skip header r hc hm⟩
  have hf : foldRows header [] (rows.filter (fun r => !r.isEmpty))
      = .ok (collectRows header [] rows) := by
    rw [hfil]
    exact foldRows_eq_collect header rows [] hsteps
  have hnone : none ∉ collectRows header [] rows := by
    rw [mem_collectRows header rows [] none]
    rintro (h0 | ⟨r, hr, hstep⟩)
    · cases h0
    · rcases (rowStep_ok_some_iff header r none hc ho hd).mp hstep with ⟨hm, hlab⟩
      obtain ⟨o, hov⟩ := rowVal_isSome header r "office" ho (hlen r hr)
      rw [hov] at hlab
      obtain ⟨s, hse⟩ := raceLabel_isSome o (rowVal header r "district")
      rw [hse] at hlab
      cases hlab
  have hsort := sortLabels_of_not_none (collectRows header [] rows) hnone
  refine ⟨List.map some (List.insertionSort (fun a b => a.data ≤ b.data)
    (List.filterMap id (collectRows header [] rows))), ?_, ?_⟩
  · rw [extract_eq_of_fold header rows (collectRows header [] rows) hf]
    exact hsort
  · intro l
    rw [sortLabels_ok_mem (collectRows header [] rows) _ hsort l,
      mem_collectRows header rows [] l]
    constructor
    · rintro (h0 | ⟨r, hr, hstep⟩)
      · cases h0
      · rcases (rowStep_ok_some_iff header r l hc ho hd).mp hstep with ⟨hm, hlab⟩
        exact ⟨r, hr, hm, hlab⟩
    · rintro ⟨r, hr, hm, hlab⟩
      exact Or.inr ⟨r, hr, (rowStep_ok_some_iff header r l hc ho hd).mpr ⟨hm, hlab⟩⟩

theorem extract_races_exact_label_set_witness :
    ∃ out, extract_races [["county", "office", "district"], ["Ingham", "A", ""]]
        = .ok out ∧
      ∀ l : Option String, l ∈ out ↔
        ∃ r ∈ [["Ingham", "A", ""]],
          rowVal ["county", "office", "district"] r "county" = some "Ingham" ∧
            raceLabel (rowVal ["county", "office", "district"] r "office")
              (rowVal ["county", "office", "district"] r "district") = l :=
  extract_races_exact_label_set ["county", "office", "district"] [["Ingham", "A", ""]]
    (by decide) (by decide) (by decide) (by decide)

/-- Claim C3: every successful result of `extract_races` holds each
distinct label exactly once and is sorted ascending: adjacent entries are
strings in lexicographic `≤` order. -/
theorem extract_races_nodup_sorted (file : List (List String)) (out : List (Option String))
    (h : extract_races file = .ok out) :
    out.Nodup ∧ out.Chain' labelLe := by
  cases file with
  | nil =>
    cases h
    simp
  | cons header rest =>
    obtain ⟨races, hf, hs⟩ := extract_ok_parts header rest out h
    have hsteps := foldRows_ok_steps header (rest.filter (fun r => !r.isEmpty)) [] races hf
    have hraces : races = collectRows header [] (rest.filter (fun r => !r.isEmpty)) := by
      have hco := foldRows_eq_collect header (rest.filter (fun r => !r.isEmpty)) [] hsteps
      rw [hf] at hco
      exact Except.ok.inj hco
    have hnd : races.Nodup := by
      rw [hraces]
      exact nodup_collectRows header (rest.filter (fun r => !r.isEmpty)) [] (by simp)
    exact ⟨sortLabels_ok_nodup races out hnd hs, sortLabels_ok_chain races out hnd hs⟩

theorem extract_races_nodup_sorted_witness :
    ([some "President", some "State House - District 67"] : List (Option String)).Nodup ∧
      ([some "President", some "State House - District 67"] :
          List (Option String)).Chain' labelLe :=
  extract_races_nodup_sorted
    [["county", "office", "district"], ["Ingham", "President", ""],
     ["Ingham", "State House", "67"], ["Wayne", "President", ""]]
    [some "President", some "State House - District 67"] rfl

/-- Claim C6: permuting the data rows of a table (header unchanged) leaves
the successful output of `extract_races` identical. -/
theorem extract_races_row_order_irrelevant (header : List String)
    (rows rows' : List (List String)) (out : List (Option String))
    (hp : rows.Perm rows') (h : extract_races (header :: rows) = .ok out) :
    extract_races (header :: rows') = .ok out := by
  obtain ⟨races, hf, hs⟩ := extract_ok_parts header rows out h
  have hsteps := foldRows_ok_steps header (rows.filter (fun r => !r.isEmpty)) [] races hf
  have hraces : races = collectRows header [] (rows.filter (fun r => !r.isEmpty)) := by
    have hco := foldRows_eq_collect header (rows.filter (fun r => !r.isEmpty)) [] hsteps
    rw [hf] at hco
    exact Except.ok.inj hco
  have hpf : (rows.filter (fun r => !r.isEmpty)).Perm (rows'.filter (fun r => !r.isEmpty)) :=
    hp.filter (fun r => !r.isEmpty)
  have hsteps' : ∀ r ∈ rows'.filter (fun r => !r.isEmpty), ∃ u, rowStep header r = .ok u :=
    fun r hr => hsteps r (hpf.mem_iff.mpr hr)
  have hf' := foldRows_eq_collect header (rows'.filter (fun r => !r.isEmpty)) [] hsteps'
  have hperm : (collectRows header [] (rows.filter (fun r => !r.isEmpty))).Perm
      (collectRows header [] (rows'.filter (fun r => !r.isEmpty))) := by
    rw [List.perm_ext_iff_of_nodup
      (nodup_collectRows header (rows.filter (fun r => !r.isEmpty)) [] (by simp))
      (nodup_collectRows header (rows'.filter (fun r => !r.isEmpty)) [] (by simp))]
    intro a
    rw [mem_collectRows header (rows.filter (fun r => !r.isEmpty)) [] a,
      mem_collectRows header (rows'.filter (fun r => !r.isEmpty)) [] a]
    constructor
    · rintro (h0 | ⟨r, hr, hstep⟩)
      · cases h0
      · exact Or.inr ⟨r, hpf.mem_iff.mp hr, hstep⟩
    · rintro (h0 | ⟨r, hr, hstep⟩)
      · cases h0
      · exact Or.inr ⟨r, hpf.mem_iff.mpr hr, hstep⟩
  rw [extract_eq_of_fold header rows'
      (collectRows header [] (rows'.filter (fun r => !r.isEmpty))) hf',
    sortLabels_perm (collectRows header [] (rows.filter (fun r => !r.isEmpty)))
      (collectRows header [] (rows'.filter (fun r => !r.isEmpty)))
      (nodup_collectRows header (rows.filter (fun r => !r.isEmpty)) [] (by simp)) hperm,
    ← hraces]
  exact hs

theorem extract_races_row_order_irrelevant_witness :
    extract_races [["county", "office", "district"], ["Ingham", "B", ""], ["Ingham", "A", ""]]
      = .ok [some "A", some "B"] :=
  extract_races_row_order_irrelevant ["county", "office", "district"]
    [["Ingham", "A", ""], ["Ingham", "B", ""]] [["Ingham", "B", ""], ["Ingham", "A", ""]]
    [some "A", some "B"]
    (List.Perm.swap ["Ingham", "B", ""] ["Ingham", "A", ""] []) rfl

/-- Claim C8: for each file the driver processes, when extraction
succeeds the printed report block is exactly: a separator of 60 `=`
characters, the title line, the separator again, each extracted race on
its own line prefixed `"  - "`, a blank line, and `Total races: n` where
`n` is the length of the sequence `extract_races` returned (the block is
preceded by the blank line that `print("\n...")` emits). -/
theorem report_block_structure (year fname : String) (file : List (List String))
    (rs : List (Option String)) (hy : (year, fname) ∈ driverFiles)
    (hok : extract_races file = .ok rs)
    (hnl : ∀ r ∈ rs, '\n' ∉ (pyStr r).data) :
    reportOf year file =
      some (["", sep60, titleLine year, sep60]
        ++ rs.map (fun r => "  - " ++ pyStr r)
        ++ ["", "Total races: " ++ toString rs.length])
    ∧ sep60.data = List.replicate 60 '=' := by
  constructor
  · have hyear : '\n' ∉ (titleLine year).data := by
      simp only [driverFiles, List.mem_cons, List.not_mem_nil, or_false] at hy
      rcases hy with h | h | h <;> rw [Prod.mk.injEq] at h <;> rw [h.1] <;> decide
    simp only [reportOf, hok]
    congr 1
    unfold filePrints
    rw [printLines_head_newline ("\n" ++ sep60) sep60
        (by rw [strDataAppend]; rfl) sep60_no_newline,
      printLines_of_no_newline (titleLine year) hyear,
      printLines_of_no_newline sep60 sep60_no_newline,
      flatten_race_lines rs hnl,
      printLines_head_newline ("\nTotal races: " ++ toString rs.length)
        ("Total races: " ++ toString rs.length) (totalLine_data rs.length)
        (totalLine_no_newline rs.length)]
    simp
  · rfl

theorem report_block_structure_witness :
    reportOf "2024" [["county", "office", "district"], ["Ingham", "President", ""]] =
      some (["", sep60, titleLine "2024", sep60]
        ++ [some "President"].map (fun r => "  - " ++ pyStr r)
        ++ ["", "Total races: " ++ toString (1 : Nat)])
    ∧ sep60.data = List.replicate 60 '=' :=
  report_block_structure "2024" "20241105__mi__general__precinct.csv"
    [["county", "office", "district"], ["Ingham", "President", ""]]
    [some "President"] (by decide) rfl (by decide)
